import Mathlib

/-!
# Verification of the optical-illusion SVG generator

A shallow embedding of `main.cpp` from the `opticalillusions` repository.
The program computes positions, rotations and color classes for squares and
ellipses arranged in concentric rings and writes them as SVG markup to a file.

Modelling conventions:
* `float` arithmetic is modelled over `ℚ`; the program's constant `PI`
  (`3.14159265358979323846f`, which rounds to the IEEE-754 single-precision
  value `13176795 / 2^22`) is the rational `13176795 / 4194304`.
  Intermediate float rounding is not modelled; the claims proved here concern
  shape counts, color classes, call parameters and document structure, none of
  which depend on rounding of the trigonometric coordinates.
* `cosf` and `sinf` are abstracted as parameters `cosf sinf : ℚ → ℚ`; no claim
  depends on their values.
* `size_t` values are modelled as `ℕ`; the C expression `& 0xFFFFFFFE` is the
  literal `Nat` bitwise-and with `0xFFFFFFFE`, and `sw/2`, `w/2`, `n/2` on
  `size_t` are `Nat` division.
* The output file is modelled as a `List Item` of emitted markup items in
  emission order, together with a byte-level serialization `serializeDoc`.
  `fprintf`'s `%0.1f` numeric formatting is abstracted as a fixed pure
  function of the rational value (this cannot affect determinism claims).
* The success of `fopen` is modelled by an explicit boolean `openOk` passed to
  the generation routines; on `openOk = false` the routines emit nothing, as
  in the source (`OpenSVG` returns `false` and the whole body is skipped).
-/

/-- The program's constant `PI = 3.14159265358979323846f`, i.e. the
single-precision float nearest to π, as an exact rational. -/
def PI : ℚ := 13176795 / 4194304

/-- The two SVG class names used by the program: `class="b"` (dark/black)
and `class="w"` (light/white). -/
inductive SvgClass where
  | b
  | w
deriving DecidableEq, Repr

/-- A square as emitted by `DrawCircleOfSquares`: translate coordinates,
rotation angle `phi` in degrees, the rotation origin `(cx, cy)`, the side
length and the color class printed in the `rect` tag. -/
structure PlacedSquare where
  x : ℚ
  y : ℚ
  phi : ℚ
  rotCx : ℕ
  rotCy : ℕ
  sw : ℕ
  cls : SvgClass
deriving DecidableEq, Repr

/-- An ellipse as emitted by `DrawCircleOfEllipses`: translate coordinates,
rotation angle `phi` in degrees, rotation origin, semi-axes `rx`/`ry` and the
optional color class (`none` when `SelectEllipseColor` prints no class
attribute, a gap slot). -/
structure PlacedEllipse where
  x : ℚ
  y : ℚ
  phi : ℚ
  rotCx : ℕ
  rotCy : ℕ
  rx : ℚ
  ry : ℚ
  cls : Option SvgClass
deriving DecidableEq, Repr

/-- One emitted markup item, in emission order.  `svgTag` records the four
numbers printed as `width`, `height` and the two `viewBox` dimensions. -/
inductive Item where
  | xmlDecl
  | svgTag (width height vbWidth vbHeight : ℕ)
  | authorComment
  | style1 (cx cy : ℕ) (dark light : String)
  | style2 (cx cy : ℕ) (dark light : String)
  | background (w h : ℕ) (bgclr : String)
  | square (s : PlacedSquare)
  | ellipse (e : PlacedEllipse)
  | closeTag
deriving DecidableEq, Repr

/-- `OpenSVG` (main.cpp:50-72), restricted to the markup it writes on a
successful open.  The source prints `w` for the width attribute, the height
attribute and both viewBox dimensions; the parameter `h` is never used. -/
def OpenSVG (w h : ℕ) : List Item :=
  [Item.xmlDecl, Item.svgTag w w w w, Item.authorComment]

/-- The square count of `DrawCircleOfSquares` (main.cpp:117):
`(size_t)ceil((2*PI*r)/(1.5f*sw)) & 0xFFFFFFFE`. -/
def numSquares (r : ℚ) (sw : ℕ) : ℕ :=
  ⌈(2 * PI * r) / (1.5 * (sw : ℚ))⌉₊ &&& 0xFFFFFFFE

/-- The loop of `DrawCircleOfSquares` (main.cpp:122-138): `k` slots remain,
`i` is the current index and `theta` the current angle.  The printed translate
coordinates are `r*cos θ + sw/2` and `r*sin θ + sw/2` with `sw/2` a `size_t`
division; the orientation is `12*(parity ? 1 : -1) + 180*θ/PI`; the class is
`"b"` for odd `i` and `"w"` for even `i`. -/
def drawSquaresLoop (cosf sinf : ℚ → ℚ) (cx cy : ℕ) (r : ℚ) (sw : ℕ)
    (parity : Bool) (dtheta : ℚ) : ℕ → ℕ → ℚ → List PlacedSquare
  | 0, _, _ => []
  | k + 1, i, theta =>
      { x := r * cosf theta + ((sw / 2 : ℕ) : ℚ)
        y := r * sinf theta + ((sw / 2 : ℕ) : ℚ)
        phi := 12 * (if parity then 1 else -1) + 180 * theta / PI
        rotCx := cx
        rotCy := cy
        sw := sw
        cls := if i % 2 = 1 then SvgClass.b else SvgClass.w } ::
      drawSquaresLoop cosf sinf cx cy r sw parity dtheta k (i + 1) (theta + dtheta)

/-- `DrawCircleOfSquares` (main.cpp:113-139): computes the even square count
`n`, the angle step `2*PI/n`, and emits one square per index `0 ≤ i < n`
starting at angle `0`. -/
def DrawCircleOfSquares (cosf sinf : ℚ → ℚ) (cx cy : ℕ) (r : ℚ) (sw : ℕ)
    (parity : Bool) : List PlacedSquare :=
  let n := numSquares r sw
  let dtheta := 2 * PI / (n : ℚ)
  drawSquaresLoop cosf sinf cx cy r sw parity dtheta n 0 0

/-- `SelectEllipseColor` (main.cpp:207-213): with `j = i % 4`, prints
`class="b"` when `(parity ∧ j = 0) ∨ (¬parity ∧ j = 2)`, `class="w"` when
`(parity ∧ j = 2) ∨ (¬parity ∧ j = 0)`, and nothing otherwise. -/
def SelectEllipseColor (i : ℕ) (parity : Bool) : Option SvgClass :=
  let j := i % 4
  if (parity && j == 0) || (!parity && j == 2) then some SvgClass.b
  else if (parity && j == 2) || (!parity && j == 0) then some SvgClass.w
  else none

/-- The loop of `DrawCircleOfEllipses` (main.cpp:238-254): `k` slots remain,
`i` is the current slot index, `theta` the current angle and `parity` the
current parity.  Every slot emits an ellipse element whose class attribute is
`SelectEllipseColor i parity`; after emitting slot `i`, the parity is negated
when `i = flip`. -/
def drawEllipsesLoop (cosf sinf : ℚ → ℚ) (cx cy : ℕ) (r r0 r1 dtheta : ℚ)
    (flip : ℕ) : ℕ → ℕ → ℚ → Bool → List PlacedEllipse
  | 0, _, _, _ => []
  | k + 1, i, theta, parity =>
      { x := r * cosf theta
        y := r * sinf theta
        phi := 90 + 180 * theta / PI
        rotCx := cx
        rotCy := cy
        rx := r0
        ry := r1
        cls := SelectEllipseColor i parity } ::
      drawEllipsesLoop cosf sinf cx cy r r0 r1 dtheta flip k (i + 1)
        (theta + dtheta) (if i == flip then !parity else parity)

/-- `DrawCircleOfEllipses` (main.cpp:234-255): emits one ellipse element per
slot index `0 ≤ i < n` starting at angle `theta`.  The default `flip`
argument is the source's sentinel `999999`. -/
def DrawCircleOfEllipses (cosf sinf : ℚ → ℚ) (cx cy : ℕ) (r r0 r1 : ℚ)
    (n : ℕ) (theta dtheta : ℚ) (parity : Bool) (flip : ℕ := 999999) :
    List PlacedEllipse :=
  drawEllipsesLoop cosf sinf cx cy r r0 r1 dtheta flip n 0 theta parity

/-- The parameters of one `DrawCircleOfEllipses` call made by
`DrawTripleCircle`. -/
structure RingCall where
  r : ℚ
  count : ℕ
  theta0 : ℚ
  dtheta : ℚ
  parity : Bool
  flip : ℕ
deriving DecidableEq, Repr

/-- The three calls made by `DrawTripleCircle` (main.cpp:293-305):
`dtheta = PI/n`, `theta = (flip ? PI : -PI)/2`, then `n` is doubled and the
middle (radius `r`, default flip sentinel), inner (radius `r - r1`, flip
`n/2 - 1`) and outer (radius `r + r1`, flip `n/2 - 2`) rings are drawn, the
inner and outer ones starting at `theta + dtheta`, with parities `true`,
`true`, `false`. -/
def tripleCircleCalls (r r1 : ℚ) (n : ℕ) (flip : Bool) : List RingCall :=
  let dtheta := PI / (n : ℚ)
  let theta := (if flip then PI else -PI) / 2
  let n2 := 2 * n
  [ { r := r, count := n2, theta0 := theta, dtheta := dtheta,
      parity := true, flip := 999999 },
    { r := r - r1, count := n2, theta0 := theta + dtheta, dtheta := dtheta,
      parity := true, flip := n2 / 2 - 1 },
    { r := r + r1, count := n2, theta0 := theta + dtheta, dtheta := dtheta,
      parity := false, flip := n2 / 2 - 2 } ]

/-- `DrawTripleCircle` (main.cpp:293-305): the concatenated output of the
three `DrawCircleOfEllipses` calls described by `tripleCircleCalls`. -/
def DrawTripleCircle (cosf sinf : ℚ → ℚ) (cx cy : ℕ) (r r0 r1 : ℚ) (n : ℕ)
    (flip : Bool := false) : List PlacedEllipse :=
  (tripleCircleCalls r r1 n flip).flatMap fun c =>
    DrawCircleOfEllipses cosf sinf cx cy c.r r0 r1 c.count c.theta0 c.dtheta
      c.parity c.flip

/-- `OpticalIllusion1` (main.cpp:161-186): when the open succeeds
(`openOk = true`), the document is the SVG header, the style block, the
background rectangle, `n` rings of squares at radii `r0 + i*dr` with parity
`i & 1`, and the closing tag.  When the open fails, nothing is emitted and no
close is performed; the function returns no failure indication, as in the
source (return type `void`). -/
def OpticalIllusion1 (cosf sinf : ℚ → ℚ) (openOk : Bool) (fname : String)
    (w n : ℕ) (r0 dr : ℚ) (sw : ℕ) (dark light bgclr : String) : List Item :=
  let cx := w / 2 - sw / 2
  let cy := cx
  if openOk then
    OpenSVG w w ++
    [Item.style1 cx cy dark light, Item.background w w bgclr] ++
    ((List.range n).flatMap fun i =>
      (DrawCircleOfSquares cosf sinf cx cy (r0 + (i : ℚ) * dr) sw
        (i % 2 == 1)).map Item.square) ++
    [Item.closeTag]
  else []

/-- `OpticalIllusion2` (main.cpp:327-354): when the open succeeds, the
document is the SVG header, the style block, the background rectangle, two
triple circles — at radius `r` unflipped and at radius `r - 64` with axes
scaled by `0.8` and `flip = true` — and the closing tag.  The source passes
the literal `36` as the ellipse count to both `DrawTripleCircle` calls; its
parameter `n` is not forwarded.  When the open fails, nothing is emitted. -/
def OpticalIllusion2 (cosf sinf : ℚ → ℚ) (openOk : Bool) (fname : String)
    (w n : ℕ) (r r0 r1 : ℚ) (dark light bgclr : String) : List Item :=
  let cx := w / 2
  let cy := cx
  if openOk then
    OpenSVG w w ++
    [Item.style2 cx cy dark light, Item.background w w bgclr] ++
    (DrawTripleCircle cosf sinf cx cy r r0 r1 36 false).map Item.ellipse ++
    (DrawTripleCircle cosf sinf cx cy (r - 64) (0.8 * r0) (0.8 * r1) 36
      true).map Item.ellipse ++
    [Item.closeTag]
  else []

/-- `main` (main.cpp:367-378): the four generation calls with their literal
arguments (the open outcome of each file is a boolean parameter here) and the
unconditional `return 0`. -/
def mainProgram (ok1 ok1a ok2 ok2a : Bool) (cosf sinf : ℚ → ℚ) :
    ℕ × List Item × List Item × List Item × List Item :=
  (0,
   OpticalIllusion1 cosf sinf ok1 "output1" 800 4 100 72 24
     "black" "white" "gray",
   OpticalIllusion1 cosf sinf ok1a "output1a" 800 4 100 72 24
     "blue" "yellow" "forestgreen",
   OpticalIllusion2 cosf sinf ok2 "output2" 800 3 300 12 6
     "black" "white" "gray",
   OpticalIllusion2 cosf sinf ok2a "output2a" 800 3 300 12 6
     "blue" "yellow" "forestgreen")

/-- Numeric formatting of a rational coordinate.  The source prints floats
with `%0.1f`; that formatting is abstracted here as a fixed pure function of
the value. -/
def fmtQ (q : ℚ) : String := toString q

/-- The class attribute text printed for a color class. -/
def SvgClass.attr : SvgClass → String
  | SvgClass.b => "class=\"b\""
  | SvgClass.w => "class=\"w\""

/-- The class attribute text printed for an optional color class: nothing is
printed for a gap. -/
def clsAttr : Option SvgClass → String
  | some c => c.attr
  | none => ""

/-- The bytes printed for one markup item, following the `fprintf` format
strings of the source (main.cpp:60-66, 127-135, 171-179, 243-250, 337-347). -/
def serializeItem : Item → String
  | Item.xmlDecl => "<?xml version=\"1.0\" encoding=\"UTF-8\"?>\n"
  | Item.svgTag w h vw vh =>
      "<svg width=\"" ++ toString w ++ "\" height=\"" ++ toString h ++
      "\" viewBox=\"0 0 " ++ toString vw ++ " " ++ toString vh ++
      "\" xmlns=\"http://www.w3.org/2000/svg\">\n"
  | Item.authorComment => "<!-- Created by Ian Parberry -->\n"
  | Item.style1 cx cy dark light =>
      "<style>rect\x7bfill:none;stroke-width:3\x7drect.b\x7bx:" ++
      toString cx ++ ";y:" ++ toString cy ++ ";stroke:" ++ dark ++
      ";\x7drect.w\x7bx:" ++ toString cx ++ ";y:" ++ toString cy ++
      ";stroke:" ++ light ++ ";\x7d</style>\n"
  | Item.style2 cx cy dark light =>
      "<style>ellipse\x7bfill:none;stroke-width:3\x7dellipse.b\x7bcx:" ++
      toString cx ++ ";cy:" ++ toString cy ++ ";stroke:none;fill:" ++ dark ++
      ";\x7dellipse.w\x7bcx:" ++ toString cx ++ ";cy:" ++ toString cy ++
      ";stroke:none;fill:" ++ light ++ ";\x7d</style>\n"
  | Item.background w h bgclr =>
      "<rect width=\"" ++ toString w ++ "\" height=\"" ++ toString h ++
      "\" style=\"fill:" ++ bgclr ++ "\"/>\n"
  | Item.square s =>
      "<g transform=\"translate(" ++ fmtQ s.x ++ " " ++ fmtQ s.y ++
      ")rotate(" ++ fmtQ s.phi ++ " " ++ toString s.rotCx ++ " " ++
      toString s.rotCy ++ ")\"><rect width=\"" ++ toString s.sw ++
      "\" height=\"" ++ toString s.sw ++ "\" " ++ s.cls.attr ++ "/></g>\n"
  | Item.ellipse e =>
      "<g transform=\"translate(" ++ fmtQ e.x ++ " " ++ fmtQ e.y ++
      ")rotate(" ++ fmtQ e.phi ++ " " ++ toString e.rotCx ++ " " ++
      toString e.rotCy ++ ")\"><ellipse rx=\"" ++ fmtQ e.rx ++ "\" ry=\"" ++
      fmtQ e.ry ++ "\" " ++ clsAttr e.cls ++ "/></g>\n"
  | Item.closeTag => "</svg>\n"

/-- The byte contents of a whole document. -/
def serializeDoc (doc : List Item) : String :=
  String.join (doc.map serializeItem)

/-- The full parameter tuple of one `OpticalIllusion1` invocation, the
abstracted trigonometric functions included. -/
structure Ill1Params where
  cosf : ℚ → ℚ
  sinf : ℚ → ℚ
  fname : String
  w : ℕ
  n : ℕ
  r0 : ℚ
  dr : ℚ
  sw : ℕ
  dark : String
  light : String
  bgclr : String

/-- The full parameter tuple of one `OpticalIllusion2` invocation. -/
structure Ill2Params where
  cosf : ℚ → ℚ
  sinf : ℚ → ℚ
  fname : String
  w : ℕ
  n : ℕ
  r : ℚ
  r0 : ℚ
  r1 : ℚ
  dark : String
  light : String
  bgclr : String

/-- The bytes written by one `OpticalIllusion1` invocation whose file open
succeeded. -/
def runIllusion1 (p : Ill1Params) : String :=
  serializeDoc (OpticalIllusion1 p.cosf p.sinf true p.fname p.w p.n p.r0 p.dr
    p.sw p.dark p.light p.bgclr)

/-- The bytes written by one `OpticalIllusion2` invocation whose file open
succeeded. -/
def runIllusion2 (p : Ill2Params) : String :=
  serializeDoc (OpticalIllusion2 p.cosf p.sinf true p.fname p.w p.n p.r p.r0
    p.r1 p.dark p.light p.bgclr)

/-- Swap of the dark and light roles of an optional color class; a gap stays
a gap. -/
def swapCls : Option SvgClass → Option SvgClass
  | some SvgClass.b => some SvgClass.w
  | some SvgClass.w => some SvgClass.b
  | none => none

/-!
## Helper lemmas
-/

/-- Bitwise-and with `0xFFFFFFFE` clears the lowest bit of any value below
`2^32`, i.e. rounds it down to the nearest even number. -/
lemma land_mask (m : ℕ) (h : m < 2 ^ 32) : m &&& 0xFFFFFFFE = m - m % 2 := by
  apply Nat.eq_of_testBit_eq
  intro i
  rw [Nat.testBit_land]
  have hm2 : m - m % 2 = 2 * (m / 2) := by omega
  match i with
  | 0 => simp [Nat.testBit_zero, hm2]
  | Nat.succ i =>
    have h3 : (0xFFFFFFFE : ℕ) / 2 = 2 ^ 31 - 1 := by norm_num
    have h2 : 2 * (m / 2) / 2 = m / 2 := by omega
    simp only [Nat.testBit_succ, hm2, h3, h2, Nat.testBit_two_pow_sub_one]
    by_cases hi : i < 31
    · simp [hi]
    · have hb : m / 2 < 2 ^ i := by
        have : (2 : ℕ) ^ 31 ≤ 2 ^ i := Nat.pow_le_pow_right (by norm_num) (by omega)
        omega
      rw [Nat.testBit_lt_two_pow hb]
      simp

/-- Evaluation of the square-count ceiling at `r = 28`, `sw = 24`:
`2*PI*28 / (1.5*24) = 14*PI/9 ≈ 4.887`, whose ceiling is `5`. -/
lemma ceil_at_28_24 : ⌈(2 * PI * 28) / (1.5 * ((24 : ℕ) : ℚ))⌉₊ = 5 := by
  rw [Nat.ceil_eq_iff (by norm_num)]
  constructor <;> norm_num [PI]

/-- A slot emits a colored ellipse exactly when its index is even,
independently of the parity bit. -/
lemma SelectEllipseColor_isSome (i : ℕ) (p : Bool) :
    (SelectEllipseColor i p).isSome = decide (i % 2 = 0) := by
  have h4 : i % 4 = 0 ∨ i % 4 = 1 ∨ i % 4 = 2 ∨ i % 4 = 3 := by omega
  have h2 : i % 2 = i % 4 % 2 := by omega
  rcases h4 with h | h | h | h <;> cases p <;>
    simp [SelectEllipseColor, h, h2]

/-- Negating the parity bit swaps the dark and light roles and leaves gaps
in place. -/
lemma SelectEllipseColor_not (i : ℕ) (p : Bool) :
    SelectEllipseColor i (!p) = swapCls (SelectEllipseColor i p) := by
  have h4 : i % 4 = 0 ∨ i % 4 = 1 ∨ i % 4 = 2 ∨ i % 4 = 3 := by omega
  rcases h4 with h | h | h | h <;> cases p <;>
    simp [SelectEllipseColor, swapCls, h]

/-- Swapping roles does not change whether a slot is a gap. -/
lemma swapCls_isSome (o : Option SvgClass) : (swapCls o).isSome = o.isSome := by
  rcases o with _ | c
  · rfl
  · cases c <;> rfl

/-- The ellipse loop emits exactly one element per remaining slot. -/
lemma drawEllipsesLoop_length (cosf sinf : ℚ → ℚ) (cx cy : ℕ)
    (r r0 r1 dtheta : ℚ) (f : ℕ) :
    ∀ (k i0 : ℕ) (theta : ℚ) (p : Bool),
      (drawEllipsesLoop cosf sinf cx cy r r0 r1 dtheta f k i0 theta p).length
        = k := by
  intro k
  induction k with
  | zero => intro i0 theta p; rfl
  | succ k ih =>
    intro i0 theta p
    simp only [drawEllipsesLoop, List.length_cons, ih]

/-- Color classes emitted by the ellipse loop when the flip slot is already
past: slot `i0 + t` uses the current parity `p`, and the parity is never
negated again. -/
lemma drawEllipsesLoop_cls_past (cosf sinf : ℚ → ℚ) (cx cy : ℕ)
    (r r0 r1 dtheta : ℚ) (f : ℕ) :
    ∀ (k i0 : ℕ) (theta : ℚ) (p : Bool), f < i0 →
      (drawEllipsesLoop cosf sinf cx cy r r0 r1 dtheta f k i0 theta p).map
          PlacedEllipse.cls
        = (List.range k).map fun t => SelectEllipseColor (i0 + t) p := by
  intro k
  induction k with
  | zero => intro i0 theta p h; rfl
  | succ k ih =>
    intro i0 theta p h
    rw [List.range_succ_eq_map]
    have hne : (i0 == f) = false := by
      simp only [beq_eq_false_iff_ne]
      omega
    simp only [drawEllipsesLoop, List.map_cons, List.map_map, hne,
      Bool.false_eq_true, if_false]
    congr 1
    rw [ih (i0 + 1) (theta + dtheta) p (by omega)]
    apply List.map_congr_left
    intro t _
    have e : i0 + 1 + t = i0 + Nat.succ t := by omega
    simp only [Function.comp]
    rw [e]

/-- Color classes emitted by the ellipse loop when the flip slot has not yet
been reached: slot `i0 + t` uses the entry parity `p` up to and including the
flip slot `f`, and the negated parity strictly after it. -/
lemma drawEllipsesLoop_cls (cosf sinf : ℚ → ℚ) (cx cy : ℕ)
    (r r0 r1 dtheta : ℚ) (f : ℕ) :
    ∀ (k i0 : ℕ) (theta : ℚ) (p : Bool), i0 ≤ f →
      (drawEllipsesLoop cosf sinf cx cy r r0 r1 dtheta f k i0 theta p).map
          PlacedEllipse.cls
        = (List.range k).map fun t =>
            SelectEllipseColor (i0 + t) (if f < i0 + t then !p else p) := by
  intro k
  induction k with
  | zero => intro i0 theta p h; rfl
  | succ k ih =>
    intro i0 theta p h
    rw [List.range_succ_eq_map]
    simp only [drawEllipsesLoop, List.map_cons, List.map_map]
    congr 1
    · have hni : ¬ f < i0 := by omega
      simp only [Nat.add_zero]
      rw [if_neg hni]
    · by_cases hf : i0 = f
      · have hbeq : (i0 == f) = true := by simp [hf]
        rw [hbeq, if_pos rfl]
        rw [drawEllipsesLoop_cls_past cosf sinf cx cy r r0 r1 dtheta f k
          (i0 + 1) (theta + dtheta) (!p) (by omega)]
        apply List.map_congr_left
        intro t _
        have e : i0 + 1 + t = i0 + Nat.succ t := by omega
        have hlt : f < i0 + Nat.succ t := by omega
        simp only [Function.comp]
        rw [e, if_pos hlt]
      · have hbeq : (i0 == f) = false := by
          simp only [beq_eq_false_iff_ne]
          omega
        rw [hbeq]
        simp only [Bool.false_eq_true, if_false]
        rw [ih (i0 + 1) (theta + dtheta) p (by omega)]
        apply List.map_congr_left
        intro t _
        have e : i0 + 1 + t = i0 + Nat.succ t := by omega
        simp only [Function.comp]
        rw [e]

/-- Among the slot indices `0, …, 2n-1` exactly `n` are even. -/
lemma countP_even_range (n : ℕ) :
    (List.range (2 * n)).countP (fun t => decide (t % 2 = 0)) = n := by
  induction n with
  | zero => rfl
  | succ n ih =>
    have h : 2 * (n + 1) = (2 * n + 1) + 1 := by ring
    rw [h, List.range_succ, List.range_succ, List.countP_append,
      List.countP_append, ih]
    simp [List.countP_cons, Nat.add_mul_mod_self_left]
    omega

/-- Among the slot indices `0, …, 2n-1` exactly `n` are odd. -/
lemma countP_odd_range (n : ℕ) :
    (List.range (2 * n)).countP (fun t => decide (t % 2 = 1)) = n := by
  induction n with
  | zero => rfl
  | succ n ih =>
    have h : 2 * (n + 1) = (2 * n + 1) + 1 := by ring
    rw [h, List.range_succ, List.range_succ, List.countP_append,
      List.countP_append, ih]
    simp [List.countP_cons, Nat.add_mul_mod_self_left]
    omega

/-- A slot is a gap (no class attribute) exactly when its index is odd,
independently of the parity bit. -/
lemma SelectEllipseColor_isNone (i : ℕ) (p : Bool) :
    (SelectEllipseColor i p).isNone = decide (i % 2 = 1) := by
  have h4 : i % 4 = 0 ∨ i % 4 = 1 ∨ i % 4 = 2 ∨ i % 4 = 3 := by omega
  have h2 : i % 2 = i % 4 % 2 := by omega
  rcases h4 with h | h | h | h <;> cases p <;>
    simp [SelectEllipseColor, h, h2]

/-!
## Claim theorems
-/

/-- C1 (counterexample): the claim that the square count is at least
`ceil(2*PI*r / (1.5*s))` fails at `r = 28`, `s = 24`: the ceiling is `5`
(odd), and `DrawCircleOfSquares` computes `5 & 0xFFFFFFFE = 4 < 5` squares —
the source rounds the ceiling DOWN to the nearest even number, not up. -/
theorem squareCount_roundUp_counterexample :
    (0 : ℚ) < 28 ∧ (0 : ℕ) < 24 ∧
    ⌈(2 * PI * 28) / (1.5 * ((24 : ℕ) : ℚ))⌉₊ = 5 ∧
    numSquares 28 24 = 4 ∧
    numSquares 28 24 < ⌈(2 * PI * 28) / (1.5 * ((24 : ℕ) : ℚ))⌉₊ := by
  have h4 : numSquares 28 24 = 4 := by
    unfold numSquares
    rw [ceil_at_28_24]
    decide
  refine ⟨by norm_num, by norm_num, ceil_at_28_24, h4, ?_⟩
  rw [h4, ceil_at_28_24]
  norm_num

/-- C1 (amended): for every circle radius `r > 0` and square side `s > 0`
(with the ceiling below `2^32`, as at every call site), the computed square
count is even and equals `ceil(2*PI*r / (1.5*s))` rounded DOWN to the nearest
even number, so it is at least `ceil(2*PI*r / (1.5*s)) - 1`. -/
theorem squareCount_even_roundDown (r : ℚ) (sw : ℕ) (h1 : 0 < r)
    (h2 : 0 < sw) (h3 : ⌈(2 * PI * r) / (1.5 * (sw : ℚ))⌉₊ < 2 ^ 32) :
    numSquares r sw % 2 = 0 ∧
    numSquares r sw
      = ⌈(2 * PI * r) / (1.5 * (sw : ℚ))⌉₊
        - ⌈(2 * PI * r) / (1.5 * (sw : ℚ))⌉₊ % 2 ∧
    ⌈(2 * PI * r) / (1.5 * (sw : ℚ))⌉₊ - 1 ≤ numSquares r sw := by
  have h := land_mask _ h3
  unfold numSquares
  omega

/-- C1 (witness): the amended theorem applied at `r = 28`, `s = 24`. -/
theorem squareCount_even_roundDown_witness :
    ((0 : ℚ) < 28 ∧ (0 : ℕ) < 24 ∧
      ⌈(2 * PI * 28) / (1.5 * ((24 : ℕ) : ℚ))⌉₊ < 2 ^ 32) ∧
    (numSquares 28 24 % 2 = 0 ∧
     numSquares 28 24
       = ⌈(2 * PI * 28) / (1.5 * ((24 : ℕ) : ℚ))⌉₊
         - ⌈(2 * PI * 28) / (1.5 * ((24 : ℕ) : ℚ))⌉₊ % 2 ∧
     ⌈(2 * PI * 28) / (1.5 * ((24 : ℕ) : ℚ))⌉₊ - 1 ≤ numSquares 28 24) :=
  have h1 : (0 : ℚ) < 28 := by norm_num
  have h2 : (0 : ℕ) < 24 := by norm_num
  have h3 : ⌈(2 * PI * 28) / (1.5 * ((24 : ℕ) : ℚ))⌉₊ < 2 ^ 32 := by
    rw [ceil_at_28_24]
    norm_num
  ⟨⟨h1, h2, h3⟩, squareCount_even_roundDown 28 24 h1 h2 h3⟩

/-- C2: ellipse color selection as a function of `i mod 4`: with the parity
bit set, slot `i mod 4 = 0` gets class `b` (dark), `i mod 4 = 2` gets class
`w` (light), and `i mod 4 ∈ {1, 3}` gets no class (gap); with the parity bit
clear, the dark and light roles are exactly swapped and the gaps are
unchanged. -/
theorem ellipseColor_mod4 (i : ℕ) :
    (SelectEllipseColor i true = some SvgClass.b ↔ i % 4 = 0) ∧
    (SelectEllipseColor i true = some SvgClass.w ↔ i % 4 = 2) ∧
    (SelectEllipseColor i true = none ↔ i % 4 = 1 ∨ i % 4 = 3) ∧
    (SelectEllipseColor i false = some SvgClass.b ↔ i % 4 = 2) ∧
    (SelectEllipseColor i false = some SvgClass.w ↔ i % 4 = 0) ∧
    (SelectEllipseColor i false = none ↔ i % 4 = 1 ∨ i % 4 = 3) ∧
    (∀ p : Bool, SelectEllipseColor i (!p) = swapCls (SelectEllipseColor i p)) := by
  refine ⟨?_, ?_, ?_, ?_, ?_, ?_, fun p => SelectEllipseColor_not i p⟩ <;>
  · have h4 : i % 4 = 0 ∨ i % 4 = 1 ∨ i % 4 = 2 ∨ i % 4 = 3 := by omega
    rcases h4 with h | h | h | h <;> simp [SelectEllipseColor, h]

/-- C3: a ring-of-ellipses call with `2n` slots (the doubled visual count)
emits `2n` ellipse elements of which exactly `n` carry a color class and
exactly `n` are gaps (no class attribute), regardless of the parity bit and
of the flip index. -/
theorem ellipseRing_half_gaps (cosf sinf : ℚ → ℚ) (cx cy : ℕ) (r r0 r1 : ℚ)
    (n : ℕ) (theta dtheta : ℚ) (parity : Bool) (f : ℕ) :
    (DrawCircleOfEllipses cosf sinf cx cy r r0 r1 (2 * n) theta dtheta parity
        f).length = 2 * n ∧
    ((DrawCircleOfEllipses cosf sinf cx cy r r0 r1 (2 * n) theta dtheta
        parity f).filter fun e => e.cls.isSome).length = n ∧
    ((DrawCircleOfEllipses cosf sinf cx cy r r0 r1 (2 * n) theta dtheta
        parity f).filter fun e => e.cls.isNone).length = n := by
  have hcls := drawEllipsesLoop_cls cosf sinf cx cy r r0 r1 dtheta f (2 * n)
    0 theta parity (Nat.zero_le f)
  have h1 : (DrawCircleOfEllipses cosf sinf cx cy r r0 r1 (2 * n) theta
      dtheta parity f).countP (fun e => e.cls.isSome)
      = ((DrawCircleOfEllipses cosf sinf cx cy r r0 r1 (2 * n) theta dtheta
          parity f).map PlacedEllipse.cls).countP Option.isSome :=
    (List.countP_map Option.isSome PlacedEllipse.cls _).symm
  have h1n : (DrawCircleOfEllipses cosf sinf cx cy r r0 r1 (2 * n) theta
      dtheta parity f).countP (fun e => e.cls.isNone)
      = ((DrawCircleOfEllipses cosf sinf cx cy r r0 r1 (2 * n) theta dtheta
          parity f).map PlacedEllipse.cls).countP Option.isNone :=
    (List.countP_map Option.isNone PlacedEllipse.cls _).symm
  refine ⟨drawEllipsesLoop_length cosf sinf cx cy r r0 r1 dtheta f (2 * n) 0
    theta parity, ?_, ?_⟩
  · rw [← List.countP_eq_length_filter, h1]
    simp only [DrawCircleOfEllipses]
    rw [hcls, List.countP_map]
    have h2 : List.countP (Option.isSome ∘ fun t =>
        SelectEllipseColor (0 + t) (if f < 0 + t then !parity else parity))
        (List.range (2 * n))
        = List.countP (fun t => decide (t % 2 = 0)) (List.range (2 * n)) := by
      apply List.countP_congr
      intro t _
      simp only [Function.comp, SelectEllipseColor_isSome, Nat.zero_add]
    rw [h2, countP_even_range]
  · rw [← List.countP_eq_length_filter, h1n]
    simp only [DrawCircleOfEllipses]
    rw [hcls, List.countP_map]
    have h2 : List.countP (Option.isNone ∘ fun t =>
        SelectEllipseColor (0 + t) (if f < 0 + t then !parity else parity))
        (List.range (2 * n))
        = List.countP (fun t => decide (t % 2 = 1)) (List.range (2 * n)) := by
      apply List.countP_congr
      intro t _
      simp only [Function.comp, SelectEllipseColor_isNone, Nat.zero_add]
    rw [h2, countP_odd_range]

/-- C5: in every `DrawTripleCircle` call with visual count `m`, the three
rings have radii `r`, `r - r1`, `r + r1` and slot count `2m` each; the middle
ring (radius `r`) gets the sentinel flip index `999999` while the other two
get `m - 1` and `m - 2` (the source computes them as `n/2 - 1` and `n/2 - 2`
with `n = 2m` the doubled count); and provided `2m ≤ 999999` the sentinel
never matches a slot index, so the middle ring is drawn with no flip: its
colors follow the entry parity at every slot. -/
theorem tripleCircle_flip_points (r r1 : ℚ) (m : ℕ) (fl : Bool)
    (hm : 2 * m ≤ 999999) :
    ((tripleCircleCalls r r1 m fl).map RingCall.r = [r, r - r1, r + r1]) ∧
    ((tripleCircleCalls r r1 m fl).map RingCall.count
      = [2 * m, 2 * m, 2 * m]) ∧
    ((tripleCircleCalls r r1 m fl).map RingCall.flip
      = [999999, m - 1, m - 2]) ∧
    (∀ (cosf sinf : ℚ → ℚ) (cx cy : ℕ) (r0 theta dtheta : ℚ) (p : Bool),
      (DrawCircleOfEllipses cosf sinf cx cy r r0 r1 (2 * m) theta dtheta p
          999999).map PlacedEllipse.cls
        = (List.range (2 * m)).map fun i => SelectEllipseColor i p) := by
  have hdiv : 2 * m / 2 = m := by omega
  refine ⟨rfl, rfl, ?_, ?_⟩
  · simp only [tripleCircleCalls, List.map_cons, List.map_nil]
    rw [hdiv]
  · intro cosf sinf cx cy r0 theta dtheta p
    have hcls := drawEllipsesLoop_cls cosf sinf cx cy r r0 r1 dtheta 999999
      (2 * m) 0 theta p (Nat.zero_le _)
    simp only [DrawCircleOfEllipses]
    rw [hcls]
    apply List.map_congr_left
    intro t ht
    have hlt : t < 2 * m := List.mem_range.mp ht
    have hno : ¬ 999999 < 0 + t := by omega
    rw [if_neg hno, Nat.zero_add]

/-- C5 (witness): the theorem applied at the braid parameters `r = 300`,
`r1 = 6`, visual count `3`, unflipped. -/
theorem tripleCircle_flip_points_witness :
    2 * 3 ≤ 999999 ∧
    (((tripleCircleCalls 300 6 3 false).map RingCall.r
        = [300, 300 - 6, 300 + 6]) ∧
     ((tripleCircleCalls 300 6 3 false).map RingCall.count = [6, 6, 6]) ∧
     ((tripleCircleCalls 300 6 3 false).map RingCall.flip
        = [999999, 3 - 1, 3 - 2]) ∧
     (∀ (cosf sinf : ℚ → ℚ) (cx cy : ℕ) (r0 theta dtheta : ℚ) (p : Bool),
       (DrawCircleOfEllipses cosf sinf cx cy 300 r0 6 (2 * 3) theta dtheta p
           999999).map PlacedEllipse.cls
         = (List.range (2 * 3)).map fun i => SelectEllipseColor i p)) :=
  ⟨by norm_num, tripleCircle_flip_points 300 6 3 false (by norm_num)⟩

/-- C6: within a single ring-of-ellipses call with flip index `f`, the color
class of every slot with index strictly greater than `f` is the dark/light
swap of what the slots up to `f` use (the entry parity), and which slots are
gaps is unaffected by `f` and by the parity: a slot is colored exactly when
its index is even. -/
theorem ellipseRing_flip_swaps (cosf sinf : ℚ → ℚ) (cx cy : ℕ) (r r0 r1 : ℚ)
    (n : ℕ) (theta dtheta : ℚ) (parity : Bool) (f : ℕ) :
    ((DrawCircleOfEllipses cosf sinf cx cy r r0 r1 n theta dtheta parity
        f).map PlacedEllipse.cls
      = (List.range n).map fun i =>
          if f < i then swapCls (SelectEllipseColor i parity)
          else SelectEllipseColor i parity) ∧
    ((DrawCircleOfEllipses cosf sinf cx cy r r0 r1 n theta dtheta parity
        f).map fun e => e.cls.isSome)
      = (List.range n).map fun i => decide (i % 2 = 0) := by
  have hcls := drawEllipsesLoop_cls cosf sinf cx cy r r0 r1 dtheta f n 0
    theta parity (Nat.zero_le f)
  have hmain : (DrawCircleOfEllipses cosf sinf cx cy r r0 r1 n theta dtheta
      parity f).map PlacedEllipse.cls
      = (List.range n).map fun i =>
          if f < i then swapCls (SelectEllipseColor i parity)
          else SelectEllipseColor i parity := by
    simp only [DrawCircleOfEllipses]
    rw [hcls]
    apply List.map_congr_left
    intro t _
    rw [Nat.zero_add]
    by_cases hf : f < t
    · rw [if_pos hf, if_pos hf, SelectEllipseColor_not]
    · rw [if_neg hf, if_neg hf]
  refine ⟨hmain, ?_⟩
  have hcomp : (fun e : PlacedEllipse => e.cls.isSome)
      = Option.isSome ∘ PlacedEllipse.cls := rfl
  rw [hcomp, ← List.map_map, hmain, List.map_map]
  apply List.map_congr_left
  intro t _
  simp only [Function.comp]
  by_cases hf : f < t
  · rw [if_pos hf, swapCls_isSome, SelectEllipseColor_isSome]
  · rw [if_neg hf, SelectEllipseColor_isSome]

/-- C4 (counterexample): at the concrete braid parameters `r = 300`,
`r1 = 6`, `n = 36` of the second illusion, the parity bits passed to the
three ring calls are `[true, true, false]` whether or not `flip` is set; they
are NOT reversed by `flip`, contradicting the claim that `flip` reverses the
color polarity passed to the ring calls. -/
theorem tripleFlip_parity_counterexample :
    ((tripleCircleCalls 300 6 36 true).map RingCall.parity
      = [true, true, false]) ∧
    ((tripleCircleCalls 300 6 36 false).map RingCall.parity
      = [true, true, false]) ∧
    ((tripleCircleCalls 300 6 36 true).map RingCall.parity
      ≠ ((tripleCircleCalls 300 6 36 false).map RingCall.parity).map not) := by
  refine ⟨rfl, rfl, ?_⟩
  intro hcontra
  simp [tripleCircleCalls] at hcontra

/-- C4 (amended): setting the flip boolean of `DrawTripleCircle` negates the
base start angle (`PI/2` instead of `-PI/2`, propagated to the three ring
calls), and this is the only difference: the parity bits passed to the three
rings are `(true, true, false)` regardless of `flip`, so the chirality
reversal comes from the start-angle sign alone, not from the color
polarity. -/
theorem tripleFlip_angle_only (r r1 : ℚ) (n : ℕ) :
    ((tripleCircleCalls r r1 n true).map RingCall.parity
      = (tripleCircleCalls r r1 n false).map RingCall.parity) ∧
    ((tripleCircleCalls r r1 n false).map RingCall.parity
      = [true, true, false]) ∧
    ((tripleCircleCalls r r1 n true).map RingCall.theta0
      = [PI / 2, PI / 2 + PI / (n : ℚ), PI / 2 + PI / (n : ℚ)]) ∧
    ((tripleCircleCalls r r1 n false).map RingCall.theta0
      = [(-PI) / 2, (-PI) / 2 + PI / (n : ℚ), (-PI) / 2 + PI / (n : ℚ)]) := by
  refine ⟨rfl, rfl, ?_, ?_⟩ <;> simp [tripleCircleCalls]

/-- C7: when the file open fails, `OpticalIllusion1` and `OpticalIllusion2`
emit nothing (in particular no closing tag is written) and return no failure
indication, and `main` returns exit status `0` regardless of the four open
outcomes. -/
theorem openFail_silent (cosf sinf : ℚ → ℚ) (fname : String) (w n : ℕ)
    (r0 dr : ℚ) (sw : ℕ) (dark light bgclr : String) (r rr0 rr1 : ℚ)
    (ok1 ok1a ok2 ok2a : Bool) :
    OpticalIllusion1 cosf sinf false fname w n r0 dr sw dark light bgclr
      = [] ∧
    OpticalIllusion2 cosf sinf false fname w n r rr0 rr1 dark light bgclr
      = [] ∧
    (mainProgram ok1 ok1a ok2 ok2a cosf sinf).1 = 0 :=
  ⟨rfl, rfl, rfl⟩

/-- C8: the generation routines are deterministic: two invocations of the
same scenario with identical parameter tuples (each with a successful file
open) produce byte-identical document contents. -/
theorem sameParams_byteIdentical (p₁ p₂ : Ill1Params) (q₁ q₂ : Ill2Params)
    (h1 : p₁ = p₂) (h2 : q₁ = q₂) :
    runIllusion1 p₁ = runIllusion1 p₂ ∧ runIllusion2 q₁ = runIllusion2 q₂ := by
  subst h1
  subst h2
  exact ⟨rfl, rfl⟩

/-- C8 (witness): determinism applied at the literal parameters of the first
and third `main` calls. -/
theorem sameParams_byteIdentical_witness :
    runIllusion1 ⟨fun _ => 0, fun _ => 0, "output1", 800, 4, 100, 72, 24,
        "black", "white", "gray"⟩
      = runIllusion1 ⟨fun _ => 0, fun _ => 0, "output1", 800, 4, 100, 72, 24,
        "black", "white", "gray"⟩ ∧
    runIllusion2 ⟨fun _ => 0, fun _ => 0, "output2", 800, 3, 300, 12, 6,
        "black", "white", "gray"⟩
      = runIllusion2 ⟨fun _ => 0, fun _ => 0, "output2", 800, 3, 300, 12, 6,
        "black", "white", "gray"⟩ :=
  sameParams_byteIdentical _ _ _ _ rfl rfl

/-- C9: for radius `r = 0` and square side `s > 0` the ring-of-squares layout
computes a zero square count (the ceiling of `0` is `0`), so it emits no
shapes at all; vacuously, every emitted shape lies at the center point
`(sw/2, sw/2)` of its translate offset.  No division is evaluated inside the
empty loop, so no invalid rotation is ever produced. -/
theorem squares_radius_zero (cosf sinf : ℚ → ℚ) (cx cy sw : ℕ)
    (parity : Bool) (h : 0 < sw) :
    DrawCircleOfSquares cosf sinf cx cy 0 sw parity = [] ∧
    ∀ sq ∈ DrawCircleOfSquares cosf sinf cx cy 0 sw parity,
      sq.x = ((sw / 2 : ℕ) : ℚ) ∧ sq.y = ((sw / 2 : ℕ) : ℚ) := by
  have hz : (2 * PI * 0) / (1.5 * (sw : ℚ)) = 0 := by
    rw [mul_zero, zero_div]
  have hn : numSquares 0 sw = 0 := by
    unfold numSquares
    rw [hz, Nat.ceil_zero]
    decide
  have hempty : DrawCircleOfSquares cosf sinf cx cy 0 sw parity = [] := by
    simp only [DrawCircleOfSquares, hn]
    rfl
  refine ⟨hempty, ?_⟩
  rw [hempty]
  intro sq hsq
  cases hsq

/-- C9 (witness): the theorem applied at `sw = 24` with the trigonometric
functions instantiated to constants. -/
theorem squares_radius_zero_witness :
    0 < 24 ∧
    (DrawCircleOfSquares (fun _ => 0) (fun _ => 0) 0 0 0 24 true = [] ∧
     ∀ sq ∈ DrawCircleOfSquares (fun _ => 0) (fun _ => 0) 0 0 0 24 true,
       sq.x = ((24 / 2 : ℕ) : ℚ) ∧ sq.y = ((24 / 2 : ℕ) : ℚ)) :=
  ⟨by norm_num,
   squares_radius_zero (fun _ => 0) (fun _ => 0) 0 0 24 true (by norm_num)⟩

/-- C10: `OpenSVG` ignores its height parameter: the emitted header is the
same for any two heights, equals the header for height `w`, and prints `w`
as the width attribute, the height attribute and both viewBox dimensions, so
the canvas is always square with side `w`. -/
theorem openSVG_ignores_height (w h h' : ℕ) :
    OpenSVG w h = OpenSVG w h' ∧
    OpenSVG w h = OpenSVG w w ∧
    OpenSVG w h = [Item.xmlDecl, Item.svgTag w w w w, Item.authorComment] :=
  ⟨rfl, rfl, rfl⟩
